import Mathlib

/-!
# Formal model of `src/bond_calc.py`

Shallow embedding of the bond calculator's computational core.

Conventions of the embedding:
* Python IEEE-754 floats are modelled as exact rationals (`ℚ`); the source's
  arithmetic formulas are rational functions of their inputs, so every formula
  translates verbatim.
* Python/numpy runtime exceptions are modelled by `Except PyError`:
  `cf[-1] += face` on an empty array raises `IndexError`, `np.dot` on
  length-mismatched vectors raises `ValueError`, and scalar division by an
  integer zero (`coupon/freq` with `freq = 0`) raises `ZeroDivisionError`.
  The guards appear in the same order in which the Python expressions are
  evaluated.
* numpy arrays are modelled as `List ℚ`; `np.fromfunction(f, (n,), dtype=int)`
  becomes `(List.range n).map f`, and `np.dot` becomes `dotList`.
* The CLI input-reading of `_ytm`, `_price` and `_duration_convexity` is
  dropped; the values read from the prompt become function arguments, in the
  order the source reads them.
-/

/-- Python runtime errors the calculator's core can raise. -/
inductive PyError where
  | indexError
  | valueError
  | zeroDivisionError
  deriving DecidableEq

instance {ε α : Type} [DecidableEq ε] [DecidableEq α] : DecidableEq (Except ε α) := fun x y =>
  match x, y with
  | .error a, .error b =>
    if h : a = b then .isTrue (by rw [h]) else .isFalse (by intro hc; cases hc; exact h rfl)
  | .ok a, .ok b =>
    if h : a = b then .isTrue (by rw [h]) else .isFalse (by intro hc; cases hc; exact h rfl)
  | .error _, .ok _ => .isFalse (by intro hc; cases hc)
  | .ok _, .error _ => .isFalse (by intro hc; cases hc)

/-- `addToLast v xs` is `xs` with `v` added to its last entry
(the effect of Python's `xs[-1] += v` on a non-empty array). -/
def addToLast (v : ℚ) : List ℚ → List ℚ
  | [] => []
  | [x] => [x + v]
  | x :: y :: xs => x :: addToLast v (y :: xs)

/-- Dot product of two lists (`np.dot` on equal-length 1-D arrays). -/
def dotList : List ℚ → List ℚ → ℚ
  | [], _ => 0
  | _ :: _, [] => 0
  | x :: xs, y :: ys => x * y + dotList xs ys

/-- Model of `_weighted_cash_flows(coefficients, coupon, face, freq, maturity)`:
builds the schedule `[(coupon/freq)*face] * (freq*maturity)`, does
`cf[-1] += face`, and returns `np.dot(cf, coefficients)`.
Failure modes, in Python evaluation order: `freq = 0` makes the scalar
division `coupon/freq` raise `ZeroDivisionError`; an empty schedule makes
`cf[-1]` raise `IndexError`; a length mismatch makes `np.dot` raise
`ValueError`. -/
def _weighted_cash_flows (coefficients : List ℚ) (coupon : ℚ) (face : ℚ)
    (freq : ℕ) (maturity : ℕ) : Except PyError ℚ :=
  if freq = 0 then .error .zeroDivisionError
  else if freq * maturity = 0 then .error .indexError
  else if coefficients.length = freq * maturity then
    .ok (dotList
      (addToLast face (List.replicate (freq * maturity) ((coupon / (freq : ℚ)) * face)))
      coefficients)
  else .error .valueError

/-- Model of `_npv_cash_flows(discount, coupon, face, nper)`:
discount factors `1/(1 + discount)**(i + 1)` for `i = 0..nper-1`, then
`_weighted_cash_flows(coefficients=..., coupon=coupon, face=face, maturity=nper)`
with `freq` left at its default `1`. -/
def _npv_cash_flows (discount coupon face : ℚ) (nper : ℕ) : Except PyError ℚ :=
  _weighted_cash_flows ((List.range nper).map (fun i => 1 / (1 + discount) ^ (i + 1)))
    coupon face 1 nper

/-- Model of `_price`: after the prompts, the source returns
`_npv_cash_flows(apr/freq, coupon/freq, face, freq*years)`.
With `freq = 0` the scalar division `apr/freq` raises `ZeroDivisionError`. -/
def _price (face apr coupon : ℚ) (freq years : ℕ) : Except PyError ℚ :=
  if freq = 0 then .error .zeroDivisionError
  else _npv_cash_flows (apr / (freq : ℚ)) (coupon / (freq : ℚ)) face (freq * years)

/-- Model of `_macaulay_duration(apr, coupon, face, freq, maturity, price)`:
coefficients `((t+1)/freq)*((1 + (apr/freq))**(-(t+1)))/price` for
`t = 0..freq*maturity-1`, then `_weighted_cash_flows`.
With `freq = 0` the scalar division `apr/freq` inside the coefficient
expression raises `ZeroDivisionError`. -/
def _macaulay_duration (apr coupon face : ℚ) (freq maturity : ℕ) (price : ℚ) :
    Except PyError ℚ :=
  if freq = 0 then .error .zeroDivisionError
  else
    _weighted_cash_flows ((List.range (freq * maturity)).map
        (fun (t : ℕ) =>
          (((t : ℚ) + 1) / (freq : ℚ)) * ((1 + apr / (freq : ℚ)) ^ (-((t : ℤ) + 1))) / price))
      coupon face freq maturity

/-- Model of `_convexity(apr, coupon, face, freq, maturity, price)`:
coefficients `(((t+1)*(t+2))/((1 + (apr/freq))**(t+3)*(freq**2)))/price` for
`t = 0..freq*maturity-1`, then `_weighted_cash_flows`.
With `freq = 0` the scalar division `apr/freq` raises `ZeroDivisionError`. -/
def _convexity (apr coupon face : ℚ) (freq maturity : ℕ) (price : ℚ) :
    Except PyError ℚ :=
  if freq = 0 then .error .zeroDivisionError
  else
    _weighted_cash_flows ((List.range (freq * maturity)).map
        (fun (t : ℕ) => (((t : ℚ) + 1) * ((t : ℚ) + 2)) /
          ((1 + apr / (freq : ℚ)) ^ (t + 3) * ((freq : ℚ) ^ 2)) / price))
      coupon face freq maturity

/-- Model of `_duration_convexity()`: after the prompts (`n`, `freq`, `coupon`,
`face`, `yld`), the source computes
`price = _npv_cash_flows(yld/freq, coupon/freq, face, freq*n)`,
`d = _macaulay_duration(yld, coupon, face, freq, n, price)`,
`d_m = d/(1 + (yld/freq))`, `c_0 = _convexity(yld, coupon, face, freq, n, price)`
and returns `(d, d_m, c_0)`. Scalar divisions by zero (`freq = 0`, or
`1 + yld/freq = 0` in the `d_m` line) raise `ZeroDivisionError`, in source
order. -/
def _duration_convexity (n freq : ℕ) (coupon face yld : ℚ) :
    Except PyError (ℚ × ℚ × ℚ) :=
  if freq = 0 then .error .zeroDivisionError
  else
    match _npv_cash_flows (yld / (freq : ℚ)) (coupon / (freq : ℚ)) face (freq * n) with
    | .error e => .error e
    | .ok price =>
      match _macaulay_duration yld coupon face freq n price with
      | .error e => .error e
      | .ok d =>
        if 1 + yld / (freq : ℚ) = 0 then .error .zeroDivisionError
        else
          match _convexity yld coupon face freq n price with
          | .error e => .error e
          | .ok c0 => .ok (d, d / (1 + yld / (freq : ℚ)), c0)

/-- The closed-form value `_npv_cash_flows discount coupon face nper` computes
when `1 ≤ nper` (proved below in `npv_cash_flows_eq`): the schedule entry for
0-indexed period `t` is `coupon*face`, with `face` added at `t = nper - 1`,
discounted by `1/(1+y)^(t+1)`. -/
def bondPV (coupon face : ℚ) (nper : ℕ) (y : ℚ) : ℚ :=
  ∑ t in Finset.range nper,
    (coupon * face + if t = nper - 1 then face else 0) * (1 / (1 + y) ^ (t + 1))

/-- Modelled from the spec: the derivative of `bondPV` with respect to the
rate, used by the derivative-based (Newton-Raphson-style) YTM root-finder.
The root-finder itself (`scipy.optimize.newton`) is library code not present
under `src/`. -/
def bondPVderiv (coupon face : ℚ) (nper : ℕ) (y : ℚ) : ℚ :=
  ∑ t in Finset.range nper,
    (coupon * face + if t = nper - 1 then face else 0) *
      (-((t : ℚ) + 1) * (1 / (1 + y) ^ (t + 2)))

/-- The YTM root-finder's failure mode. -/
inductive YtmError where
  | convergenceFailure
  deriving DecidableEq

/-- Modelled from the spec: a derivative-based root-finder with an iteration
cap and a residual convergence tolerance (`scipy.optimize.newton` is library
code not present under `src/`; the spec's contract is: iterate until the
residual's magnitude falls below an internal tolerance or the iteration bound
is reached, and signal `ConvergenceFailure` on exhausting the bound). -/
def newtonSolve (f fd : ℚ → ℚ) (tol : ℚ) : ℕ → ℚ → Except YtmError ℚ
  | 0, _ => .error .convergenceFailure
  | k + 1, y =>
    if |f y| ≤ tol then .ok y
    else newtonSolve f fd tol k (y - f y / fd y)

/-- Model of `_ytm()`: after the prompts (`price`, `nper`, `face`, `coupon`),
the source returns `newton(lambda y: _npv_cash_flows(y, coupon, face, nper) - price, 0.05)`.
The solver is modelled from the spec (see `newtonSolve`), seeded at `0.05`,
with the residual `bondPV coupon face nper y - price` (equal to the ok-value
of `_npv_cash_flows y coupon face nper` minus `price` for `nper ≥ 1`, by
`npv_cash_flows_eq`). -/
def _ytm (price : ℚ) (nper : ℕ) (face coupon : ℚ) (tol : ℚ) (maxiter : ℕ) :
    Except YtmError ℚ :=
  newtonSolve (fun y => bondPV coupon face nper y - price)
    (fun y => bondPVderiv coupon face nper y) tol maxiter (5 / 100)

/-! ## Basic list lemmas -/

lemma addToLast_length (v : ℚ) (xs : List ℚ) : (addToLast v xs).length = xs.length := by
  induction xs with
  | nil => rfl
  | cons x t ih =>
    cases t with
    | nil => rfl
    | cons y ys => simp only [addToLast, List.length_cons] at ih ⊢; omega

lemma addToLast_replicate_getD (v c : ℚ) :
    ∀ n i : ℕ, 1 ≤ n → i < n →
      (addToLast v (List.replicate n c)).getD i 0 = if i = n - 1 then c + v else c := by
  intro n
  induction n with
  | zero => intro i h1 _; omega
  | succ m ih =>
    intro i hn hi
    cases m with
    | zero =>
      have hz : i = 0 := by omega
      subst hz
      simp [List.replicate, addToLast]
    | succ k =>
      cases i with
      | zero =>
        simp only [List.replicate_succ, addToLast, List.getD_cons_zero]
        rw [if_neg (by omega)]
      | succ j =>
        simp only [List.replicate_succ, addToLast, List.getD_cons_succ]
        rw [show (c :: List.replicate k c) = List.replicate (k + 1) c from rfl,
          ih j (by omega) (by omega)]
        by_cases hc : j = k
        · rw [if_pos (by omega), if_pos (by omega)]
        · rw [if_neg (by omega), if_neg (by omega)]

lemma dotList_eq_sum : ∀ xs ys : List ℚ, xs.length = ys.length →
    dotList xs ys = ∑ i in Finset.range xs.length, xs.getD i 0 * ys.getD i 0 := by
  intro xs
  induction xs with
  | nil => intro ys _; simp [dotList]
  | cons x t ih =>
    intro ys h
    cases ys with
    | nil => simp at h
    | cons y u =>
      simp only [List.length_cons] at h
      simp only [dotList, List.length_cons]
      rw [ih u (by omega), Finset.sum_range_succ']
      simp [add_comm]

lemma getD_map_range {f : ℕ → ℚ} {n t : ℕ} (ht : t < n) :
    ((List.range n).map f).getD t 0 = f t := by
  rw [List.getD_eq_getElem _ _ (by simpa using ht)]
  simp

/-! ## The weighted sum as a closed Finset sum -/

lemma wcf_eq_sum (coefficients : List ℚ) (coupon face : ℚ) (freq maturity : ℕ)
    (h : 1 ≤ freq * maturity) (hl : coefficients.length = freq * maturity) :
    _weighted_cash_flows coefficients coupon face freq maturity =
      .ok (∑ t in Finset.range (freq * maturity),
        (coupon / (freq : ℚ) * face + if t = freq * maturity - 1 then face else 0) *
          coefficients.getD t 0) := by
  have hf : freq ≠ 0 := by intro h0; rw [h0] at h; simp at h
  unfold _weighted_cash_flows
  rw [if_neg hf, if_neg (by omega : ¬freq * maturity = 0), if_pos hl]
  rw [dotList_eq_sum _ _ (by rw [addToLast_length, List.length_replicate, hl])]
  rw [addToLast_length, List.length_replicate]
  refine congrArg _ (Finset.sum_congr rfl fun t ht => ?_)
  rw [Finset.mem_range] at ht
  rw [addToLast_replicate_getD _ _ _ _ h ht]
  by_cases hc : t = freq * maturity - 1
  · rw [if_pos hc, if_pos hc]
  · rw [if_neg hc, if_neg hc, add_zero]

lemma npv_cash_flows_eq (discount coupon face : ℚ) (nper : ℕ) (h : 1 ≤ nper) :
    _npv_cash_flows discount coupon face nper = .ok (bondPV coupon face nper discount) := by
  unfold _npv_cash_flows
  rw [wcf_eq_sum _ _ _ _ _ (by omega) (by simp)]
  unfold bondPV
  congr 1
  simp only [Nat.one_mul, Nat.cast_one, div_one]
  refine Finset.sum_congr rfl fun t ht => ?_
  rw [Finset.mem_range] at ht
  rw [getD_map_range ht]

/-- Rewriting a negative-integer power as one over the natural power. -/
lemma zpow_neg_succ (a : ℚ) (t : ℕ) : a ^ (-((t : ℤ) + 1)) = 1 / a ^ (t + 1) := by
  rw [show -((t : ℤ) + 1) = -((t + 1 : ℕ) : ℤ) by push_cast; ring, zpow_neg, zpow_natCast,
    one_div]

/-- Splitting `bondPV` into the coupon annuity plus the discounted principal:
the textbook bond pricing formula. -/
lemma bondPV_split (coupon face y : ℚ) (n : ℕ) (hn : 1 ≤ n) :
    bondPV coupon face n y =
      (∑ t in Finset.range n, coupon * face / (1 + y) ^ (t + 1)) + face / (1 + y) ^ n := by
  unfold bondPV
  have hterm : ∀ t, (coupon * face + if t = n - 1 then face else 0) * (1 / (1 + y) ^ (t + 1)) =
      coupon * face / (1 + y) ^ (t + 1) +
        (if t = n - 1 then face / (1 + y) ^ (t + 1) else 0) := by
    intro t
    by_cases hc : t = n - 1 <;> simp [hc] <;> ring
  rw [Finset.sum_congr rfl fun t _ => hterm t, Finset.sum_add_distrib]
  congr 1
  rw [Finset.sum_ite_eq' (Finset.range n) (n - 1) (fun t => face / (1 + y) ^ (t + 1)),
    if_pos (Finset.mem_range.mpr (by omega))]
  congr 2
  omega

/-- Geometric-series identity behind the par-bond property: when the coupon
rate equals the discount rate, the discounted cash flows sum to the face. -/
lemma par_sum (rate face : ℚ) (hrate : -1 < rate) :
    ∀ n : ℕ, 1 ≤ n →
      (∑ t in Finset.range n, rate * face / (1 + rate) ^ (t + 1)) + face / (1 + rate) ^ n
        = face := by
  have h1 : (0 : ℚ) < 1 + rate := by linarith
  have h0 : (1 : ℚ) + rate ≠ 0 := by linarith
  intro n
  induction n with
  | zero => intro h; omega
  | succ m ih =>
    intro _
    by_cases hm : 1 ≤ m
    · have hs := ih hm
      rw [Finset.sum_range_succ]
      have hstep : rate * face / (1 + rate) ^ (m + 1) + face / (1 + rate) ^ (m + 1) =
          face / (1 + rate) ^ m := by
        rw [div_add_div_same, pow_succ, div_mul_eq_div_div, div_div,
          div_eq_div_iff (by positivity) (by positivity)]
        ring
      linarith
    · have hm0 : m = 0 := by omega
      subst hm0
      rw [Finset.sum_range_one]
      field_simp
      ring

/-- Claim C1: for `face > 0`, `coupon ≥ 0`, `rate > -1` and `nper ≥ 1`,
`_npv_cash_flows rate coupon face nper` is the bond pricing formula
`Σ_{t=1..nper} coupon*face/(1+rate)^t + face/(1+rate)^nper` (the last coupon
and the face collapsed into one schedule entry). -/
theorem npv_is_bond_pricing_formula (rate coupon face : ℚ) (nper : ℕ)
    (hface : 0 < face) (hcoupon : 0 ≤ coupon) (hrate : -1 < rate) (hn : 1 ≤ nper) :
    _npv_cash_flows rate coupon face nper =
      .ok ((∑ t in Finset.range nper, coupon * face / (1 + rate) ^ (t + 1)) +
        face / (1 + rate) ^ nper) := by
  rw [npv_cash_flows_eq _ _ _ _ hn, bondPV_split _ _ _ _ hn]

/-- Witness for C1 at `rate = 0`, `coupon = 1/10`, `face = 100`, `nper = 2`. -/
theorem npv_is_bond_pricing_formula_witness :
    (0 : ℚ) < 100 ∧ (0 : ℚ) ≤ 1 / 10 ∧ (-1 : ℚ) < 0 ∧ 1 ≤ 2 ∧
      _npv_cash_flows 0 (1 / 10) 100 2 =
        .ok ((∑ t in Finset.range 2, (1 / 10) * 100 / (1 + 0) ^ (t + 1)) +
          100 / (1 + 0) ^ 2) :=
  ⟨by norm_num, by norm_num, by norm_num, by norm_num,
    npv_is_bond_pricing_formula 0 (1 / 10) 100 2 (by norm_num) (by norm_num) (by norm_num)
      (by norm_num)⟩

/-- Claim C2: par bond property; when the per-period coupon rate equals the
periodic discount rate (with `rate > -1`, the domain of the discount
factors), the present value is exactly the face value, for every
`face > 0` and `nper ≥ 1`. Exact in the rational model. -/
theorem par_bond_property (rate face : ℚ) (nper : ℕ)
    (hface : 0 < face) (hn : 1 ≤ nper) (hrate : -1 < rate) :
    _npv_cash_flows rate rate face nper = .ok face := by
  rw [npv_cash_flows_eq _ _ _ _ hn, bondPV_split _ _ _ _ hn, par_sum rate face hrate nper hn]

/-- Witness for C2 at `rate = 1/20`, `face = 100`, `nper = 3`. -/
theorem par_bond_property_witness :
    (0 : ℚ) < 100 ∧ 1 ≤ 3 ∧ (-1 : ℚ) < 1 / 20 ∧
      _npv_cash_flows (1 / 20) (1 / 20) 100 3 = .ok 100 :=
  ⟨by norm_num, by norm_num, by norm_num,
    par_bond_property (1 / 20) 100 3 (by norm_num) (by norm_num) (by norm_num)⟩

/-- The Macaulay duration as a closed Finset sum over the schedule. -/
lemma macaulay_duration_eq_sum (apr coupon face : ℚ) (freq maturity : ℕ) (price : ℚ)
    (h : 1 ≤ freq * maturity) :
    _macaulay_duration apr coupon face freq maturity price =
      .ok (∑ t in Finset.range (freq * maturity),
        (coupon / (freq : ℚ) * face + if t = freq * maturity - 1 then face else 0) *
          ((((t : ℚ) + 1) / (freq : ℚ)) * ((1 + apr / (freq : ℚ)) ^ (-((t : ℤ) + 1))) /
            price)) := by
  have hf : freq ≠ 0 := by intro h0; rw [h0] at h; simp at h
  unfold _macaulay_duration
  rw [if_neg hf, wcf_eq_sum _ _ _ _ _ h (by simp)]
  refine congrArg _ (Finset.sum_congr rfl fun t ht => ?_)
  rw [Finset.mem_range] at ht
  rw [getD_map_range ht]

/-- The convexity as a closed Finset sum over the schedule. -/
lemma convexity_eq_sum (apr coupon face : ℚ) (freq maturity : ℕ) (price : ℚ)
    (h : 1 ≤ freq * maturity) :
    _convexity apr coupon face freq maturity price =
      .ok (∑ t in Finset.range (freq * maturity),
        (coupon / (freq : ℚ) * face + if t = freq * maturity - 1 then face else 0) *
          ((((t : ℚ) + 1) * ((t : ℚ) + 2)) /
            ((1 + apr / (freq : ℚ)) ^ (t + 3) * ((freq : ℚ) ^ 2)) / price)) := by
  have hf : freq ≠ 0 := by intro h0; rw [h0] at h; simp at h
  unfold _convexity
  rw [if_neg hf, wcf_eq_sum _ _ _ _ _ h (by simp)]
  refine congrArg _ (Finset.sum_congr rfl fun t ht => ?_)
  rw [Finset.mem_range] at ht
  rw [getD_map_range ht]

/-- Claim C6: for a valid bond, `_macaulay_duration` returns the weighted sum
of the cash-flow schedule (per-period coupon `coupon/freq` times `face`, with
the face added to the last entry) against coefficients
`((t+1)/freq) * (1 + apr/freq)^-(t+1) / price` for 0-indexed period `t`,
where `apr/freq` is the per-period discount rate. -/
theorem macaulay_duration_weighted_sum (apr coupon face : ℚ) (freq maturity : ℕ) (price : ℚ)
    (hface : 0 < face) (hcoupon : 0 ≤ coupon) (hfreq : 1 ≤ freq) (hmat : 1 ≤ maturity)
    (hprice : 0 < price) (hrate : -1 < apr / (freq : ℚ)) :
    _macaulay_duration apr coupon face freq maturity price =
      .ok (∑ t in Finset.range (freq * maturity),
        (coupon / (freq : ℚ) * face + if t = freq * maturity - 1 then face else 0) *
          ((((t : ℚ) + 1) / (freq : ℚ)) * ((1 + apr / (freq : ℚ)) ^ (-((t : ℤ) + 1))) /
            price)) :=
  macaulay_duration_eq_sum apr coupon face freq maturity price
    (Nat.one_le_iff_ne_zero.mpr (Nat.mul_ne_zero (by omega) (by omega)))

/-- Witness for C6 at `apr = 0`, `coupon = 1/10`, `face = 100`, `freq = 1`,
`maturity = 2`, `price = 120`. -/
theorem macaulay_duration_weighted_sum_witness :
    (0 : ℚ) < 100 ∧ (0 : ℚ) ≤ 1 / 10 ∧ (0 : ℚ) < 120 ∧ (-1 : ℚ) < 0 / (1 : ℚ) ∧
      _macaulay_duration 0 (1 / 10) 100 1 2 120 =
        .ok (∑ t in Finset.range (1 * 2),
          ((1 / 10) / ((1 : ℕ) : ℚ) * 100 + if t = 1 * 2 - 1 then 100 else 0) *
            ((((t : ℚ) + 1) / ((1 : ℕ) : ℚ)) * ((1 + 0 / ((1 : ℕ) : ℚ)) ^ (-((t : ℤ) + 1))) /
              120)) :=
  ⟨by norm_num, by norm_num, by norm_num, by norm_num,
    macaulay_duration_weighted_sum 0 (1 / 10) 100 1 2 120 (by norm_num) (by norm_num)
      (by norm_num) (by norm_num) (by norm_num) (by norm_num)⟩

/-- Claim C7: for a valid bond, `_convexity` returns the weighted sum of the
cash-flow schedule against coefficients
`((t+1)(t+2)) / ((1 + apr/freq)^(t+3) * freq^2) / price` for 0-indexed
period `t`, where `apr/freq` is the per-period discount rate. -/
theorem convexity_weighted_sum (apr coupon face : ℚ) (freq maturity : ℕ) (price : ℚ)
    (hface : 0 < face) (hcoupon : 0 ≤ coupon) (hfreq : 1 ≤ freq) (hmat : 1 ≤ maturity)
    (hprice : 0 < price) (hrate : -1 < apr / (freq : ℚ)) :
    _convexity apr coupon face freq maturity price =
      .ok (∑ t in Finset.range (freq * maturity),
        (coupon / (freq : ℚ) * face + if t = freq * maturity - 1 then face else 0) *
          ((((t : ℚ) + 1) * ((t : ℚ) + 2)) /
            ((1 + apr / (freq : ℚ)) ^ (t + 3) * ((freq : ℚ) ^ 2)) / price)) :=
  convexity_eq_sum apr coupon face freq maturity price
    (Nat.one_le_iff_ne_zero.mpr (Nat.mul_ne_zero (by omega) (by omega)))

/-- Witness for C7 at `apr = 0`, `coupon = 0`, `face = 100`, `freq = 1`,
`maturity = 1`, `price = 100`. -/
theorem convexity_weighted_sum_witness :
    (0 : ℚ) < 100 ∧ (0 : ℚ) ≤ 0 ∧ (0 : ℚ) < 100 ∧ (-1 : ℚ) < 0 / (1 : ℚ) ∧
      _convexity 0 0 100 1 1 100 =
        .ok (∑ t in Finset.range (1 * 1),
          ((0 : ℚ) / ((1 : ℕ) : ℚ) * 100 + if t = 1 * 1 - 1 then 100 else 0) *
            ((((t : ℚ) + 1) * ((t : ℚ) + 2)) /
              ((1 + 0 / ((1 : ℕ) : ℚ)) ^ (t + 3) * (((1 : ℕ) : ℚ) ^ 2)) / 100)) :=
  ⟨by norm_num, by norm_num, by norm_num, by norm_num,
    convexity_weighted_sum 0 0 100 1 1 100 (by norm_num) (by norm_num) (by norm_num)
      (by norm_num) (by norm_num) (by norm_num)⟩

/-- Claim C8: `_duration_convexity` first computes
`price = _npv_cash_flows(yld/freq, coupon/freq, face, freq*n)` internally,
then derives all three outputs from that single price: the Macaulay duration
at that price, the modified duration as `d / (1 + yld/freq)`, and the
convexity at that same price. Its signature takes no price from the caller. -/
theorem duration_convexity_internal_price (n freq : ℕ) (coupon face yld : ℚ)
    (hn : 1 ≤ n) (hfreq : 1 ≤ freq) (hne : 1 + yld / (freq : ℚ) ≠ 0) :
    ∃ price d c0,
      _npv_cash_flows (yld / (freq : ℚ)) (coupon / (freq : ℚ)) face (freq * n) = .ok price ∧
      _macaulay_duration yld coupon face freq n price = .ok d ∧
      _convexity yld coupon face freq n price = .ok c0 ∧
      _duration_convexity n freq coupon face yld =
        .ok (d, d / (1 + yld / (freq : ℚ)), c0) := by
  have hmul : 1 ≤ freq * n := Nat.one_le_iff_ne_zero.mpr (Nat.mul_ne_zero (by omega) (by omega))
  have hp := npv_cash_flows_eq (yld / (freq : ℚ)) (coupon / (freq : ℚ)) face (freq * n) hmul
  set PV := bondPV (coupon / (freq : ℚ)) face (freq * n) (yld / (freq : ℚ)) with hPV
  have hd := macaulay_duration_eq_sum yld coupon face freq n PV hmul
  have hc := convexity_eq_sum yld coupon face freq n PV hmul
  refine ⟨PV, _, _, hp, hd, hc, ?_⟩
  unfold _duration_convexity
  rw [if_neg (by omega : ¬freq = 0)]
  simp only [hp]
  simp only [hd]
  rw [if_neg hne]
  simp only [hc]

/-- Witness for C8 at `n = 1`, `freq = 1`, `coupon = 0`, `face = 100`,
`yld = 0`. -/
theorem duration_convexity_internal_price_witness :
    ∃ price d c0,
      _npv_cash_flows ((0 : ℚ) / ((1 : ℕ) : ℚ)) ((0 : ℚ) / ((1 : ℕ) : ℚ)) 100 (1 * 1)
        = .ok price ∧
      _macaulay_duration 0 0 100 1 1 price = .ok d ∧
      _convexity 0 0 100 1 1 price = .ok c0 ∧
      _duration_convexity 1 1 0 100 0 = .ok (d, d / (1 + (0 : ℚ) / ((1 : ℕ) : ℚ)), c0) :=
  duration_convexity_internal_price 1 1 0 100 0 (by norm_num) (by norm_num) (by norm_num)

/-- The spec-modelled root-finder either signals `convergenceFailure` or
returns an iterate whose residual meets the tolerance; by induction on the
iteration budget. -/
lemma newtonSolve_spec (f fd : ℚ → ℚ) (tol : ℚ) :
    ∀ (k : ℕ) (y0 : ℚ),
      newtonSolve f fd tol k y0 = .error .convergenceFailure ∨
      ∃ y, newtonSolve f fd tol k y0 = .ok y ∧ |f y| ≤ tol := by
  intro k
  induction k with
  | zero => intro y0; exact Or.inl rfl
  | succ m ih =>
    intro y0
    by_cases h : |f y0| ≤ tol
    · exact Or.inr ⟨y0, by simp only [newtonSolve]; rw [if_pos h], h⟩
    · have hrec := ih (y0 - f y0 / fd y0)
      simp only [newtonSolve]
      rw [if_neg h]
      exact hrec

/-- Claim C4: the YTM operation is a derivative-based root-finder seeded at
`0.05` (see `_ytm`) that, for every input and every tolerance/iteration
budget, either signals `convergenceFailure` — the outcome on exceeding the
iteration cap without meeting tolerance, distinct by type from a returned
value — or returns a rate whose residual
`bondPV coupon face nper y - price` is within tolerance; it never returns a
partially-converged guess as a final answer. -/
theorem ytm_solver_contract (price face coupon tol : ℚ) (nper maxiter : ℕ) :
    _ytm price nper face coupon tol maxiter = .error .convergenceFailure ∨
    ∃ y, _ytm price nper face coupon tol maxiter = .ok y ∧
      |bondPV coupon face nper y - price| ≤ tol :=
  newtonSolve_spec _ _ _ maxiter (5 / 100)

/-- Claim C5 counterexample: at the invalid input `rate = -2 ≤ -100%`,
`face = -5 ≤ 0` (with `nper = 3`), `_npv_cash_flows` silently computes the
numeric result `5` instead of rejecting with a descriptive error. -/
theorem npv_no_validation_cex : _npv_cash_flows (-2) 0 (-5) 3 = .ok 5 := by
  norm_num [_npv_cash_flows, _weighted_cash_flows, addToLast, dotList, List.range_succ]

/-- Claim C5 (amended): the core valuation operations perform no input
validation: for every rate, coupon and face and every `nper ≥ 1` —
including non-positive face and rate ≤ -100% — `_npv_cash_flows` returns a
computed numeric result, and for `nper = 0` it fails with an index error
(from `cf[-1]` on an empty schedule), not with a descriptive InvalidInput
rejection. A negative `nper` lies outside the ℕ-modelled domain; there the
source raises a `ValueError` inside `np.fromfunction` (negative dimensions
are not allowed) before the schedule is built — again a raw runtime error,
not a descriptive rejection, but not the index error either, so no claim is
made about it here. -/
theorem npv_no_input_validation (rate coupon face : ℚ) (nper : ℕ) :
    (1 ≤ nper → ∃ v, _npv_cash_flows rate coupon face nper = .ok v) ∧
    _npv_cash_flows rate coupon face 0 = .error .indexError := by
  refine ⟨fun h => ⟨_, npv_cash_flows_eq _ _ _ _ h⟩, ?_⟩
  unfold _npv_cash_flows _weighted_cash_flows
  norm_num

/-- Witness for amended C5 at the invalid input of the counterexample. -/
theorem npv_no_input_validation_witness :
    (∃ v, _npv_cash_flows (-2) 0 (-5) 3 = .ok v) ∧
      _npv_cash_flows (-2) 0 (-5) 0 = .error .indexError :=
  ⟨(npv_no_input_validation (-2) 0 (-5) 3).1 (by norm_num),
    (npv_no_input_validation (-2) 0 (-5) 0).2⟩

/-- Claim C10 counterexample: for `freq = 0` (so `freq * maturity = 0`) the
operation fails with a zero-division error — the scalar division
`coupon/freq` is evaluated before the schedule is built — not with the index
error the claim asserts for every `freq * maturity = 0`. -/
theorem wcf_freq_zero_cex :
    _weighted_cash_flows [] 0 100 0 1 = .error .zeroDivisionError ∧
      PyError.zeroDivisionError ≠ PyError.indexError := by
  refine ⟨?_, by decide⟩
  norm_num [_weighted_cash_flows]

/-- Claim C10 (amended): the weighted-cash-flow primitive is well-defined
exactly when the schedule is non-empty: for `freq * maturity ≥ 1` and a
coefficient vector of that length the schedule build, last-entry update and
dot product all succeed, and every internal caller (`_npv_cash_flows`,
`_macaulay_duration`, `_convexity`) passes a coefficient vector of exactly
that length, hence succeeds; for `freq * maturity = 0` with `freq ≥ 1` the
last-entry update is out of bounds and the operation fails with an index
error rather than a descriptive rejection; for `freq = 0` the per-period
coupon division fails first, with a zero-division error. -/
theorem wcf_domain (coefficients : List ℚ) (coupon face rate apr price : ℚ)
    (freq maturity nper : ℕ) :
    (1 ≤ freq * maturity → coefficients.length = freq * maturity →
      ∃ v, _weighted_cash_flows coefficients coupon face freq maturity = .ok v) ∧
    (1 ≤ freq → freq * maturity = 0 →
      _weighted_cash_flows coefficients coupon face freq maturity = .error .indexError) ∧
    (freq = 0 →
      _weighted_cash_flows coefficients coupon face freq maturity =
        .error .zeroDivisionError) ∧
    (1 ≤ nper → ∃ v, _npv_cash_flows rate coupon face nper = .ok v) ∧
    (1 ≤ freq * maturity →
      ∃ v, _macaulay_duration apr coupon face freq maturity price = .ok v) ∧
    (1 ≤ freq * maturity →
      ∃ v, _convexity apr coupon face freq maturity price = .ok v) := by
  refine ⟨fun h hl => ⟨_, wcf_eq_sum _ _ _ _ _ h hl⟩, fun hf h0 => ?_, fun hf => ?_,
    fun h => ⟨_, npv_cash_flows_eq _ _ _ _ h⟩,
    fun h => ⟨_, macaulay_duration_eq_sum _ _ _ _ _ _ h⟩,
    fun h => ⟨_, convexity_eq_sum _ _ _ _ _ _ h⟩⟩
  · unfold _weighted_cash_flows
    rw [if_neg (by omega : ¬freq = 0), if_pos h0]
  · unfold _weighted_cash_flows
    rw [if_pos hf]

/-- Witness for amended C10: a successful in-bounds call and an
empty-schedule index error, both concrete. -/
theorem wcf_domain_witness :
    (∃ v, _weighted_cash_flows [1] 0 100 1 1 = .ok v) ∧
      _weighted_cash_flows [] 0 100 1 0 = .error .indexError :=
  ⟨(wcf_domain [1] 0 100 0 0 0 1 1 0).1 (by norm_num) (by norm_num),
    (wcf_domain [] 0 100 0 0 0 1 0 0).2.1 (by norm_num) (by norm_num)⟩

/-- Positivity of the present value: all schedule entries are nonnegative and
the final one (coupon plus principal) is strictly positive. -/
lemma bondPV_pos (coupon face y : ℚ) (n : ℕ) (hface : 0 < face) (hcoupon : 0 ≤ coupon)
    (hn : 1 ≤ n) (hy : -1 < y) : 0 < bondPV coupon face n y := by
  have hy1 : (0 : ℚ) < 1 + y := by linarith
  have hcf : (0 : ℚ) ≤ coupon * face := mul_nonneg hcoupon hface.le
  have hw : ∀ t : ℕ, (0 : ℚ) < 1 / (1 + y) ^ (t + 1) :=
    fun t => one_div_pos.mpr (pow_pos hy1 (t + 1))
  unfold bondPV
  refine Finset.sum_pos' (fun t _ => mul_nonneg ?_ (hw t).le)
    ⟨n - 1, Finset.mem_range.mpr (by omega), ?_⟩
  · by_cases hc : t = n - 1
    · rw [if_pos hc]; linarith
    · rw [if_neg hc]; linarith
  · rw [if_pos rfl]
    exact mul_pos (by linarith) (hw _)

/-- The present value is strictly decreasing in the discount rate on
`(-1, ∞)` for a bond with nonnegative coupons and positive face. -/
lemma bondPV_strictAnti (coupon face : ℚ) (n : ℕ) (hface : 0 < face) (hcoupon : 0 ≤ coupon)
    (hn : 1 ≤ n) {y1 y2 : ℚ} (h1 : -1 < y1) (h12 : y1 < y2) :
    bondPV coupon face n y2 < bondPV coupon face n y1 := by
  have hp1 : (0 : ℚ) < 1 + y1 := by linarith
  have hcf : (0 : ℚ) ≤ coupon * face := mul_nonneg hcoupon hface.le
  unfold bondPV
  refine Finset.sum_lt_sum (fun t _ => ?_) ⟨n - 1, Finset.mem_range.mpr (by omega), ?_⟩
  · refine mul_le_mul_of_nonneg_left ?_ ?_
    · exact one_div_le_one_div_of_le (pow_pos hp1 (t + 1))
        (pow_le_pow_left hp1.le (by linarith) (t + 1))
    · by_cases hc : t = n - 1
      · rw [if_pos hc]; linarith
      · rw [if_neg hc]; linarith
  · rw [if_pos rfl]
    refine mul_lt_mul_of_pos_left ?_ (by linarith)
    exact one_div_lt_one_div_of_lt (pow_pos hp1 (n - 1 + 1))
      (pow_lt_pow_left (show (1 : ℚ) + y1 < 1 + y2 by linarith) hp1.le (by omega))

/-- Uniqueness of the root of the YTM residual on `(-1, ∞)`: the present
value pins down the rate. -/
lemma bondPV_inj (coupon face : ℚ) (n : ℕ) (hface : 0 < face) (hcoupon : 0 ≤ coupon)
    (hn : 1 ≤ n) {y1 y2 : ℚ} (h1 : -1 < y1) (h2 : -1 < y2)
    (heq : bondPV coupon face n y1 = bondPV coupon face n y2) : y1 = y2 := by
  rcases lt_trichotomy y1 y2 with h | h | h
  · exact absurd heq (ne_of_gt (bondPV_strictAnti coupon face n hface hcoupon hn h1 h))
  · exact h
  · exact absurd heq (ne_of_lt (bondPV_strictAnti coupon face n hface hcoupon hn h2 h))

/-- Claim C3: price/YTM round-trip. For a valid bond and an annual rate in
`(-0.99, 1)`, let `p` be the price `_price face rate couponAnnual freq years`.
Any rate `y > -1` at which the YTM residual vanishes — i.e. any root of the
equation the spec's root-finder (`scipy.optimize.newton`, library code not
under `src/`) is specified to solve, `_npv_cash_flows y (couponAnnual/freq)
face (freq*years) = p` — equals the periodic rate `rate/freq` exactly, hence
recovers it within `1e-6`. -/
theorem price_ytm_round_trip (face couponAnnual rate y : ℚ) (freq years : ℕ)
    (hface : 0 < face) (hcoupon : 0 ≤ couponAnnual) (hfreq : 1 ≤ freq) (hyears : 1 ≤ years)
    (hlo : -(99 / 100) < rate) (hhi : rate < 1) (hy : -1 < y)
    (hroot : _npv_cash_flows y (couponAnnual / (freq : ℚ)) face (freq * years) =
      _price face rate couponAnnual freq years) :
    |y - rate / (freq : ℚ)| < 1 / 1000000 := by
  have hfq : (0 : ℚ) < (freq : ℚ) := by exact_mod_cast (by omega : 0 < freq)
  have hfq1 : (1 : ℚ) ≤ (freq : ℚ) := by exact_mod_cast hfreq
  have hper : -1 < rate / (freq : ℚ) := by
    rw [lt_div_iff hfq]
    nlinarith
  have hmul : 1 ≤ freq * years :=
    Nat.one_le_iff_ne_zero.mpr (Nat.mul_ne_zero (by omega) (by omega))
  have hcp : (0 : ℚ) ≤ couponAnnual / (freq : ℚ) := div_nonneg hcoupon hfq.le
  have hpr : _price face rate couponAnnual freq years =
      .ok (bondPV (couponAnnual / (freq : ℚ)) face (freq * years) (rate / (freq : ℚ))) := by
    unfold _price
    rw [if_neg (by omega : ¬freq = 0), npv_cash_flows_eq _ _ _ _ hmul]
  rw [hpr, npv_cash_flows_eq _ _ _ _ hmul] at hroot
  have heq : bondPV (couponAnnual / (freq : ℚ)) face (freq * years) y =
      bondPV (couponAnnual / (freq : ℚ)) face (freq * years) (rate / (freq : ℚ)) := by
    injection hroot
  have hyy : y = rate / (freq : ℚ) :=
    bondPV_inj _ _ _ hface hcp hmul hy hper heq
  rw [hyy, sub_self, abs_zero]
  norm_num

/-- Witness for C3 at `face = 100`, `couponAnnual = 0`, `rate = 0`, `y = 0`,
`freq = 1`, `years = 1`. -/
theorem price_ytm_round_trip_witness :
    _npv_cash_flows 0 ((0 : ℚ) / ((1 : ℕ) : ℚ)) 100 (1 * 1) = _price 100 0 0 1 1 ∧
      |(0 : ℚ) - 0 / ((1 : ℕ) : ℚ)| < 1 / 1000000 :=
  ⟨by norm_num [_npv_cash_flows, _price, _weighted_cash_flows, addToLast, dotList,
      List.range_succ],
    price_ytm_round_trip 100 0 0 0 1 1 (by norm_num) (by norm_num) (by norm_num) (by norm_num)
      (by norm_num) (by norm_num) (by norm_num)
      (by norm_num [_npv_cash_flows, _price, _weighted_cash_flows, addToLast, dotList,
        List.range_succ])⟩

/-- Collapsing a schedule-weighted sum when the per-period coupon is zero:
only the final (principal) entry contributes. -/
lemma sum_ite_face (g : ℕ → ℚ) (face : ℚ) (n : ℕ) (hn : 1 ≤ n) :
    (∑ t in Finset.range n, ((0 : ℚ) * face + if t = n - 1 then face else 0) * g t) =
      face * g (n - 1) := by
  have hterm : ∀ t ∈ Finset.range n,
      ((0 : ℚ) * face + if t = n - 1 then face else 0) * g t =
        if t = n - 1 then face * g t else 0 := by
    intro t _; split <;> simp
  rw [Finset.sum_congr rfl hterm,
    Finset.sum_ite_eq' (Finset.range n) (n - 1) (fun t => face * g t),
    if_pos (Finset.mem_range.mpr (by omega))]

/-- The Macaulay duration sum of a bond with strictly positive per-period
coupon and at least two periods is strictly below the maturity in years. -/
lemma macaulay_sum_lt (cp face y m : ℚ) (freq n : ℕ) (price : ℚ)
    (hface : 0 < face) (hcp : 0 < cp) (hfq : (0 : ℚ) < (freq : ℚ))
    (hy1 : (0 : ℚ) < 1 + y) (hn2 : 2 ≤ n) (hm : (freq : ℚ) * m = (n : ℚ))
    (hprice : price = ∑ t in Finset.range n,
      (cp * face + if t = n - 1 then face else 0) * (1 / (1 + y) ^ (t + 1))) :
    (∑ t in Finset.range n, (cp * face + if t = n - 1 then face else 0) *
      ((((t : ℚ) + 1) / (freq : ℚ)) * ((1 + y) ^ (-((t : ℤ) + 1))) / price)) < m := by
  have hw : ∀ t : ℕ, (0 : ℚ) < 1 / (1 + y) ^ (t + 1) :=
    fun t => one_div_pos.mpr (pow_pos hy1 (t + 1))
  have hterm : ∀ t : ℕ, (0 : ℚ) < cp * face + if t = n - 1 then face else 0 := by
    intro t; split <;> nlinarith
  have hpos : 0 < price := by
    rw [hprice]
    exact Finset.sum_pos (fun t _ => mul_pos (hterm t) (hw t))
      ⟨0, Finset.mem_range.mpr (by omega)⟩
  have hn2q : (2 : ℚ) ≤ (n : ℚ) := by exact_mod_cast hn2
  have hgoal : (∑ t in Finset.range n, (cp * face + if t = n - 1 then face else 0) *
      ((((t : ℚ) + 1) / (freq : ℚ)) * ((1 + y) ^ (-((t : ℤ) + 1))) / price)) =
      (∑ t in Finset.range n, (cp * face + if t = n - 1 then face else 0) *
        ((((t : ℚ) + 1) / (freq : ℚ)) * (1 / (1 + y) ^ (t + 1)))) / price := by
    rw [Finset.sum_div]
    exact Finset.sum_congr rfl fun t _ => by rw [zpow_neg_succ]; ring
  rw [hgoal, div_lt_iff hpos, hprice, Finset.mul_sum]
  refine Finset.sum_lt_sum (fun t ht => ?_) ⟨0, Finset.mem_range.mpr (by omega), ?_⟩
  · have hA : ((t : ℚ) + 1) / (freq : ℚ) ≤ m := by
      rw [div_le_iff hfq]
      have ht' : (t : ℚ) + 1 ≤ (n : ℚ) := by
        exact_mod_cast Nat.succ_le_of_lt (Finset.mem_range.mp ht)
      nlinarith
    calc (cp * face + if t = n - 1 then face else 0) *
          ((((t : ℚ) + 1) / (freq : ℚ)) * (1 / (1 + y) ^ (t + 1)))
        = ((cp * face + if t = n - 1 then face else 0) * (1 / (1 + y) ^ (t + 1))) *
            (((t : ℚ) + 1) / (freq : ℚ)) := by ring
      _ ≤ ((cp * face + if t = n - 1 then face else 0) * (1 / (1 + y) ^ (t + 1))) * m :=
          mul_le_mul_of_nonneg_left hA (mul_nonneg (hterm t).le (hw t).le)
      _ = m * ((cp * face + if t = n - 1 then face else 0) * (1 / (1 + y) ^ (t + 1))) := by
          ring
  · have hA0 : (((0 : ℕ) : ℚ) + 1) / (freq : ℚ) < m := by
      rw [div_lt_iff hfq]
      push_cast
      nlinarith
    calc (cp * face + if (0 : ℕ) = n - 1 then face else 0) *
          ((((0 : ℕ) : ℚ) + 1) / (freq : ℚ) * (1 / (1 + y) ^ (0 + 1))) =
        ((cp * face + if (0 : ℕ) = n - 1 then face else 0) * (1 / (1 + y) ^ (0 + 1))) *
          ((((0 : ℕ) : ℚ) + 1) / (freq : ℚ)) := by ring
      _ < ((cp * face + if (0 : ℕ) = n - 1 then face else 0) * (1 / (1 + y) ^ (0 + 1))) * m :=
          mul_lt_mul_of_pos_left hA0 (mul_pos (hterm 0) (hw 0))
      _ = m * ((cp * face + if (0 : ℕ) = n - 1 then face else 0) * (1 / (1 + y) ^ (0 + 1))) :=
          by ring

/-- The Macaulay duration sum of a zero-coupon bond equals the maturity in
years exactly. -/
lemma macaulay_sum_zero_coupon (cp face y m : ℚ) (freq n : ℕ) (price : ℚ)
    (hcp0 : cp = 0) (hface : 0 < face) (hfq : (0 : ℚ) < (freq : ℚ))
    (hy1 : (0 : ℚ) < 1 + y) (hn : 1 ≤ n) (hm : (freq : ℚ) * m = (n : ℚ))
    (hprice : price = ∑ t in Finset.range n,
      (cp * face + if t = n - 1 then face else 0) * (1 / (1 + y) ^ (t + 1))) :
    (∑ t in Finset.range n, (cp * face + if t = n - 1 then face else 0) *
      ((((t : ℚ) + 1) / (freq : ℚ)) * ((1 + y) ^ (-((t : ℤ) + 1))) / price)) = m := by
  subst hcp0
  have hwn : (0 : ℚ) < 1 / (1 + y) ^ (n - 1 + 1) :=
    one_div_pos.mpr (pow_pos hy1 (n - 1 + 1))
  have hpr2 : price = face * (1 / (1 + y) ^ (n - 1 + 1)) := by
    rw [hprice, sum_ite_face _ _ _ hn]
  have hcast : ((n - 1 : ℕ) : ℚ) + 1 = (n : ℚ) := by
    rw [Nat.cast_sub hn]
    push_cast
    ring
  rw [sum_ite_face _ _ _ hn, zpow_neg_succ, hpr2, hcast, Nat.sub_add_cancel hn]
  have hP : (0 : ℚ) < (1 + y) ^ n := pow_pos hy1 _
  field_simp
  linear_combination (-(face * (1 + y) ^ n)) * hm

/-- Claim C9 counterexample: a one-period bond with strictly positive coupon
(`coupon = 1`, `face = 100`, `freq = 1`, `maturity = 1`, rate `0`, consistent
price `200`) has Macaulay duration exactly `1`, equal to — not strictly less
than — its maturity in years. -/
theorem duration_bound_cex :
    _npv_cash_flows 0 1 100 1 = .ok 200 ∧
      _macaulay_duration 0 1 100 1 1 200 = .ok 1 ∧ ¬((1 : ℚ) < 1) := by
  refine ⟨?_, ?_, by norm_num⟩
  · norm_num [_npv_cash_flows, _weighted_cash_flows, addToLast, dotList, List.range_succ]
  · norm_num [_macaulay_duration, _weighted_cash_flows, addToLast, dotList, List.range_succ]

/-- Claim C9 (amended): with `price` the bond's present value at per-period
rate `apr/freq` (the consistency condition), the Macaulay duration of a bond
with strictly positive coupon and at least two payment periods is strictly
less than the maturity in years — for a single payment period it instead
equals the maturity, as the counterexample shows — and the Macaulay duration
of a zero-coupon bond equals the maturity in years exactly. -/
theorem duration_bound_amended (apr coupon face : ℚ) (freq maturity : ℕ) (price : ℚ)
    (hface : 0 < face) (hcoupon : 0 ≤ coupon) (hfreq : 1 ≤ freq) (hmat : 1 ≤ maturity)
    (hrate : -1 < apr / (freq : ℚ))
    (hprice : _npv_cash_flows (apr / (freq : ℚ)) (coupon / (freq : ℚ)) face
      (freq * maturity) = .ok price) :
    (0 < coupon → 2 ≤ freq * maturity →
      ∀ d, _macaulay_duration apr coupon face freq maturity price = .ok d →
        d < (maturity : ℚ)) ∧
    (coupon = 0 →
      _macaulay_duration apr coupon face freq maturity price = .ok (maturity : ℚ)) := by
  have hfq : (0 : ℚ) < (freq : ℚ) := by exact_mod_cast (by omega : 0 < freq)
  have hmul : 1 ≤ freq * maturity :=
    Nat.one_le_iff_ne_zero.mpr (Nat.mul_ne_zero (by omega) (by omega))
  have hy1 : (0 : ℚ) < 1 + apr / (freq : ℚ) := by linarith
  have hm : (freq : ℚ) * (maturity : ℚ) = ((freq * maturity : ℕ) : ℚ) := by
    push_cast
    ring
  rw [npv_cash_flows_eq _ _ _ _ hmul] at hprice
  have hpv : bondPV (coupon / (freq : ℚ)) face (freq * maturity) (apr / (freq : ℚ)) =
      price := by
    injection hprice
  have hpx : price = ∑ t in Finset.range (freq * maturity),
      (coupon / (freq : ℚ) * face + if t = freq * maturity - 1 then face else 0) *
        (1 / (1 + apr / (freq : ℚ)) ^ (t + 1)) := by
    rw [← hpv]
    rfl
  have hmac := macaulay_duration_eq_sum apr coupon face freq maturity price hmul
  constructor
  · intro hcpos hn2 d hd
    rw [hmac] at hd
    injection hd with hD
    rw [← hD]
    exact macaulay_sum_lt (coupon / (freq : ℚ)) face (apr / (freq : ℚ)) (maturity : ℚ)
      freq (freq * maturity) price hface (div_pos hcpos hfq) hfq hy1 hn2 hm hpx
  · intro hc0
    rw [hmac]
    simp only [Except.ok.injEq]
    exact macaulay_sum_zero_coupon (coupon / (freq : ℚ)) face (apr / (freq : ℚ))
      (maturity : ℚ) freq (freq * maturity) price (by rw [hc0, zero_div]) hface hfq hy1
      hmul hm hpx

/-- Witness for amended C9 at `apr = 0`, `coupon = 1/10`, `face = 100`,
`freq = 1`, `maturity = 2`, `price = 120`, duration `23/12 < 2`. -/
theorem duration_bound_amended_witness :
    _npv_cash_flows ((0 : ℚ) / ((1 : ℕ) : ℚ)) ((1 / 10 : ℚ) / ((1 : ℕ) : ℚ)) 100 (1 * 2) =
        .ok 120 ∧
      (23 / 12 : ℚ) < ((2 : ℕ) : ℚ) :=
  ⟨by norm_num [_npv_cash_flows, _weighted_cash_flows, addToLast, dotList, List.range_succ],
    (duration_bound_amended 0 (1 / 10) 100 1 2 120 (by norm_num) (by norm_num) (by norm_num)
        (by norm_num) (by norm_num)
        (by norm_num [_npv_cash_flows, _weighted_cash_flows, addToLast, dotList,
          List.range_succ])).1
      (by norm_num) (by norm_num) (23 / 12)
      (by norm_num [_macaulay_duration, _weighted_cash_flows, addToLast, dotList,
        List.range_succ])⟩

